import Mathlib

/-!
# Verification of the AlohaType triangular-grid renderer

Shallow embedding of the triangular-grid glyph renderer:
the cell geometry resolver (`getPoints`), the bounds & viewport
calculator used for auto-cropping (`calcViewport`), the grid-key
serialization (`cellKey` / `parseKey`), and the font-import handler
(`handleFileChange`).  JavaScript strings are modelled as `List Char`;
exact pixel arithmetic is modelled over `ℚ`.
-/

/-- A JavaScript string, modelled as its sequence of characters. -/
abbrev JSString := List Char

/-- Modelled from the spec: the build-time configuration constants from
`constants.ts`, which is not present under `src/` (the spec lists
`GRID_ROWS`, `GRID_COLS`, `TRIANGLE_SIZE`, `TRIANGLE_HEIGHT`,
`CANVAS_WIDTH`, `CANVAS_HEIGHT` as external fixed constants). -/
structure Config where
  GRID_ROWS : ℕ
  GRID_COLS : ℕ
  TRIANGLE_SIZE : ℚ
  TRIANGLE_HEIGHT : ℚ
  CANVAS_WIDTH : ℚ
  CANVAS_HEIGHT : ℚ
deriving Repr, DecidableEq

/-- The sample configuration from the spec's test scenario:
grid 10×10, `TRIANGLE_SIZE = 20`, `TRIANGLE_HEIGHT = 17`, with the canvas
sized to bound the full grid. -/
def sampleConfig : Config :=
  { GRID_ROWS := 10, GRID_COLS := 10, TRIANGLE_SIZE := 20,
    TRIANGLE_HEIGHT := 17, CANVAS_WIDTH := 110, CANVAS_HEIGHT := 170 }

/-- The decimal digit character for `d` (`0 ≤ d ≤ 9`). -/
def digitChar (d : ℕ) : Char := Char.ofNat (48 + d)

/-- The decimal representation of a natural number as a character
sequence, as produced by a JavaScript template literal. -/
def natChars (n : ℕ) : List Char :=
  if _h : n < 10 then [digitChar n]
  else natChars (n / 10) ++ [digitChar (n % 10)]
decreasing_by
  exact Nat.div_lt_self (by omega) (by omega)

/-- The grid-coordinate key string: a cell `(r, c)` serializes to the
string produced by the template literal in the source (`part_000` line 35,
`part_001` line 37): decimal row, ASCII hyphen, decimal column. -/
def cellKey (r c : ℕ) : JSString := natChars r ++ '-' :: natChars c

/-- Orientation of the cell at `(r, c)`: `isUp = (r + c) % 2 === 0`
(`part_000` line 76, `part_001` line 25). -/
def isUp (r c : ℕ) : Bool := (r + c) % 2 == 0

/-- Cell geometry resolver (`getPoints`, `part_000` lines 73–83 and
`part_001` lines 21–34): the three vertices of the triangle at `(r, c)`,
in the order they appear in the generated points string. -/
def getPoints (cfg : Config) (r c : ℕ) : List (ℚ × ℚ) :=
  let S := cfg.TRIANGLE_SIZE
  let H := cfg.TRIANGLE_HEIGHT
  let xBase := ((c : ℚ) * S) / 2
  let yBase := (r : ℚ) * H
  if isUp r c then
    [(xBase, yBase + H), (xBase + S / 2, yBase), (xBase + S, yBase + H)]
  else
    [(xBase, yBase), (xBase + S, yBase), (xBase + S / 2, yBase + H)]

/-- The row-major scan of `GlyphDisplay` (`part_000` lines 91–112):
the in-bounds coordinates whose key is in the gridState, in the order
the nested `for` loops visit them.  Both the polygon list and the
auto-crop bounds are computed from exactly these cells. -/
def activeInBounds (cfg : Config) (gridState : List JSString) : List (ℕ × ℕ) :=
  (List.range cfg.GRID_ROWS).flatMap (fun r =>
    (List.range cfg.GRID_COLS).filterMap (fun c =>
      if cellKey r c ∈ gridState then some (r, c) else none))

/-- The polygons pushed by the render loop: one per active in-bounds
cell, with the vertices from `getPoints`. -/
def renderedPolygons (cfg : Config) (gridState : List JSString) : List (List (ℚ × ℚ)) :=
  (activeInBounds cfg gridState).map (fun rc => getPoints cfg rc.1 rc.2)

/-- Grid-space bounding box tracked by the render loop. -/
structure Bounds where
  minR : ℕ
  maxR : ℕ
  minC : ℕ
  maxC : ℕ
deriving Repr, DecidableEq

/-- One step of the bounds tracking (`part_000` lines 96–101): the four
`if` updates against `Infinity`/`-Infinity` sentinels amount to: the
first active cell initializes the box, each later one extends it by
`min`/`max`. -/
def boundsStep (b : Option Bounds) (rc : ℕ × ℕ) : Option Bounds :=
  match b with
  | none => some ⟨rc.1, rc.1, rc.2, rc.2⟩
  | some b => some ⟨min b.minR rc.1, max b.maxR rc.1, min b.minC rc.2, max b.maxC rc.2⟩

/-- The bounding box of the active in-bounds cells, folded in loop order;
`none` when no cell was visited (the sentinels still hold `Infinity`). -/
def gridBounds (cells : List (ℕ × ℕ)) : Option Bounds :=
  cells.foldl boundsStep none

/-- A viewBox rectangle `(minX, minY, width, height)`. -/
structure Viewport where
  minX : ℚ
  minY : ℚ
  width : ℚ
  height : ℚ
deriving Repr, DecidableEq

/-- The fixed full-canvas viewport `0 0 CANVAS_WIDTH CANVAS_HEIGHT`. -/
def fixedViewport (cfg : Config) : Viewport :=
  ⟨0, 0, cfg.CANVAS_WIDTH, cfg.CANVAS_HEIGHT⟩

/-- Bounds & viewport calculator (`part_000` lines 114–134): the fixed
viewport unless auto-crop is on and at least one polygon was pushed, in
which case the pixel bounds of the active cells plus 10% padding. -/
def calcViewport (cfg : Config) (gridState : List JSString) (autoCrop : Bool) : Viewport :=
  let cells := activeInBounds cfg gridState
  if autoCrop ∧ cells.length > 0 then
    match gridBounds cells with
    | some b =>
      let minX := ((b.minC : ℚ) * cfg.TRIANGLE_SIZE) / 2
      let maxX := ((b.maxC : ℚ) * cfg.TRIANGLE_SIZE) / 2 + cfg.TRIANGLE_SIZE
      let minY := (b.minR : ℚ) * cfg.TRIANGLE_HEIGHT
      let maxY := ((b.maxR : ℚ) + 1) * cfg.TRIANGLE_HEIGHT
      let width := maxX - minX
      let height := maxY - minY
      let paddingX := width * (1/10)
      let paddingY := height * (1/10)
      ⟨minX - paddingX, minY - paddingY, width + paddingX * 2, height + paddingY * 2⟩
    | none => fixedViewport cfg
  else fixedViewport cfg

/-- The digit value of a character, when it is a decimal digit
(`Number` on a digit string interprets characters `'0'`–`'9'`). -/
def charDigit (ch : Char) : Option ℕ :=
  if 48 ≤ ch.toNat ∧ ch.toNat ≤ 57 then some (ch.toNat - 48) else none

/-- Left-to-right decimal accumulation over a digit sequence. -/
def parseDigitsGo (acc : ℕ) : List Char → Option ℕ
  | [] => some acc
  | ch :: rest =>
    match charDigit ch with
    | some d => parseDigitsGo (acc * 10 + d) rest
    | none => none

/-- Reading a non-empty decimal digit string as a natural number. -/
def parseDigits (cs : List Char) : Option ℕ :=
  match cs with
  | [] => none
  | _ => parseDigitsGo 0 cs

/-- `String.prototype.split` on a single separator character. -/
def splitOnChar (sep : Char) : List Char → List (List Char)
  | [] => [[]]
  | ch :: rest =>
    if ch = sep then [] :: splitOnChar sep rest
    else
      match splitOnChar sep rest with
      | [] => [[ch]]
      | p :: ps => (ch :: p) :: ps

/-- Parsing a grid key back into a coordinate, as `handleSave`
(`part_001` line 92) does: `key.split('-')` destructured into the two
decimal integers. -/
def parseKey (cs : JSString) : Option (ℕ × ℕ) :=
  match splitOnChar '-' cs with
  | [a, b] =>
    match parseDigits a, parseDigits b with
    | some r, some c => some (r, c)
    | _, _ => none
  | _ => none

/-- Serializing an active-cell set: each coordinate to its key string. -/
def serializeCells (coords : List (ℕ × ℕ)) : List JSString :=
  coords.map (fun rc => cellKey rc.1 rc.2)

/-- Parsing a key list back into the coordinates it denotes. -/
def parseCells (keys : List JSString) : List (ℕ × ℕ) :=
  keys.filterMap parseKey

/-- Glyph generation status (`types.ts`). -/
inductive GlyphStatus where
  | pending | loading | success | error
deriving Repr, DecidableEq

/-- `GlyphData` (`types.ts`): character, legacy image URL (nullable),
optional grid state, status. -/
structure GlyphData where
  char : String
  imageUrl : Option String
  gridState : Option (List JSString)
  status : GlyphStatus
deriving Repr, DecidableEq

/-- The shape of the imported document's top-level `glyphs` field, as the
validation in `handleFileChange` (`App.tsx` lines 88–92) distinguishes it:
absent (or falsy), present but not an object, or an object mapping
characters to grid-state arrays. -/
inductive GlyphsField where
  | missing
  | notObject
  | obj (entries : List (String × List JSString))
deriving Repr, DecidableEq

/-- Font-import handler (`App.tsx` lines 79–115): rejects a document
whose `glyphs` field is absent or not an object (alert, no state update —
the `Bool` component records acceptance); otherwise maps over the
previous glyphs, replacing `gridState` and nulling `imageUrl` for every
glyph whose character has an entry, leaving the others untouched. -/
def handleFileChange (doc : GlyphsField) (prev : List GlyphData) :
    Bool × List GlyphData :=
  match doc with
  | .obj entries =>
    (true, prev.map (fun g =>
      match entries.lookup g.char with
      | some newGridState => { g with gridState := some newGridState, imageUrl := none }
      | none => g))
  | _ => (false, prev)

/-! ## Key serialization lemmas -/

theorem natChars_ne_nil (n : ℕ) : natChars n ≠ [] := by
  rw [natChars]
  split
  · simp
  · simp

theorem digitChar_toNat (d : ℕ) (hd : d < 10) : (digitChar d).toNat = 48 + d := by
  interval_cases d <;> rfl

theorem mem_natChars_digit (n : ℕ) : ∀ ch ∈ natChars n, 48 ≤ ch.toNat ∧ ch.toNat ≤ 57 := by
  induction n using Nat.strong_induction_on with
  | _ n ih =>
    rw [natChars]
    split
    · rename_i h
      intro ch hch
      simp only [List.mem_singleton] at hch
      subst hch
      rw [digitChar_toNat n h]
      omega
    · rename_i h
      intro ch hch
      rcases List.mem_append.mp hch with h1 | h2
      · exact ih (n / 10) (Nat.div_lt_self (by omega) (by omega)) ch h1
      · simp only [List.mem_singleton] at h2
        subst h2
        have hm : n % 10 < 10 := Nat.mod_lt n (by omega)
        rw [digitChar_toNat _ hm]
        omega

theorem mem_natChars_ne_hyphen (n : ℕ) : ∀ ch ∈ natChars n, ch ≠ '-' := by
  intro ch hch heq
  have := mem_natChars_digit n ch hch
  subst heq
  simp at this

theorem charDigit_digitChar (d : ℕ) (hd : d < 10) : charDigit (digitChar d) = some d := by
  interval_cases d <;> rfl

theorem parseDigitsGo_append (xs ys : List Char) (acc m : ℕ)
    (h : parseDigitsGo acc xs = some m) :
    parseDigitsGo acc (xs ++ ys) = parseDigitsGo m ys := by
  induction xs generalizing acc with
  | nil =>
    simp only [parseDigitsGo] at h
    cases h
    simp
  | cons ch rest ih =>
    simp only [parseDigitsGo, List.cons_append] at h ⊢
    cases hcd : charDigit ch with
    | none => rw [hcd] at h; exact absurd h (by simp)
    | some d =>
      rw [hcd] at h
      exact ih _ h

theorem parseDigitsGo_natChars (n : ℕ) :
    ∀ acc, parseDigitsGo acc (natChars n) = some (acc * 10 ^ (natChars n).length + n) := by
  induction n using Nat.strong_induction_on with
  | _ n ih =>
    intro acc
    rw [natChars]
    split
    · rename_i h
      simp only [parseDigitsGo, charDigit_digitChar n h, List.length_singleton]
      norm_num
    · rename_i h
      have hd : n / 10 < n := Nat.div_lt_self (by omega) (by omega)
      have h1 := ih (n / 10) hd acc
      have h2 := parseDigitsGo_append (natChars (n / 10)) [digitChar (n % 10)] acc _ h1
      rw [h2]
      have hm : n % 10 < 10 := Nat.mod_lt n (by omega)
      simp only [parseDigitsGo, charDigit_digitChar (n % 10) hm,
        List.length_append, List.length_singleton]
      congr 1
      have e1 : (acc * 10 ^ (natChars (n / 10)).length + n / 10) * 10 + n % 10
          = acc * (10 ^ (natChars (n / 10)).length * 10) + (n / 10 * 10 + n % 10) := by ring
      have e2 : n / 10 * 10 + n % 10 = n := by omega
      rw [e1, e2, pow_succ]

theorem parseDigits_natChars (n : ℕ) : parseDigits (natChars n) = some n := by
  have hne := natChars_ne_nil n
  have hgo := parseDigitsGo_natChars n 0
  unfold parseDigits
  cases hc : natChars n with
  | nil => exact absurd hc hne
  | cons ch rest =>
    rw [hc] at hgo
    simpa using hgo

theorem splitOnChar_no_sep (sep : Char) (xs : List Char)
    (h : ∀ ch ∈ xs, ch ≠ sep) : splitOnChar sep xs = [xs] := by
  induction xs with
  | nil => rfl
  | cons ch rest ih =>
    have hch : ch ≠ sep := h ch (by simp)
    have hrest : splitOnChar sep rest = [rest] := ih (fun c hc => h c (by simp [hc]))
    simp only [splitOnChar, if_neg hch, hrest]

theorem splitOnChar_append (sep : Char) (xs ys : List Char)
    (h : ∀ ch ∈ xs, ch ≠ sep) :
    splitOnChar sep (xs ++ sep :: ys) = xs :: splitOnChar sep ys := by
  induction xs with
  | nil => simp [splitOnChar]
  | cons ch rest ih =>
    have hch : ch ≠ sep := h ch (by simp)
    have hrest := ih (fun c hc => h c (by simp [hc]))
    simp only [List.cons_append, splitOnChar, if_neg hch]
    rw [List.append_eq, hrest]

theorem splitOnChar_cellKey (r c : ℕ) :
    splitOnChar '-' (cellKey r c) = [natChars r, natChars c] := by
  unfold cellKey
  rw [splitOnChar_append '-' (natChars r) (natChars c) (mem_natChars_ne_hyphen r),
    splitOnChar_no_sep '-' (natChars c) (mem_natChars_ne_hyphen c)]

theorem parseKey_cellKey (r c : ℕ) : parseKey (cellKey r c) = some (r, c) := by
  unfold parseKey
  rw [splitOnChar_cellKey]
  simp [parseDigits_natChars]

theorem cellKey_inj {r c r' c' : ℕ} (h : cellKey r c = cellKey r' c') :
    r = r' ∧ c = c' := by
  have h1 := parseKey_cellKey r c
  have h2 := parseKey_cellKey r' c'
  rw [h, h2] at h1
  cases h1
  exact ⟨rfl, rfl⟩

/-! ## Bounding-box fold lemmas -/

theorem foldl_boundsStep_some (xs : List (ℕ × ℕ)) :
    ∀ b0 : Bounds, ∃ b : Bounds, xs.foldl boundsStep (some b0) = some b := by
  induction xs with
  | nil => intro b0; exact ⟨b0, rfl⟩
  | cons x xs ih =>
    intro b0
    simpa [boundsStep] using ih ⟨min b0.minR x.1, max b0.maxR x.1, min b0.minC x.2, max b0.maxC x.2⟩

theorem foldl_boundsStep_bounds (xs : List (ℕ × ℕ)) :
    ∀ b0 b : Bounds, xs.foldl boundsStep (some b0) = some b →
      (b.minR ≤ b0.minR ∧ b0.maxR ≤ b.maxR ∧ b.minC ≤ b0.minC ∧ b0.maxC ≤ b.maxC) ∧
      ∀ rc ∈ xs, b.minR ≤ rc.1 ∧ rc.1 ≤ b.maxR ∧ b.minC ≤ rc.2 ∧ rc.2 ≤ b.maxC := by
  induction xs with
  | nil =>
    intro b0 b h
    simp only [List.foldl_nil, Option.some_inj] at h
    subst h
    simp
  | cons x xs ih =>
    intro b0 b h
    simp only [List.foldl_cons, boundsStep] at h
    obtain ⟨⟨h1, h2, h3, h4⟩, hmem⟩ := ih _ b h
    simp only [min_le_iff, le_max_iff] at h1 h2 h3 h4
    refine ⟨⟨by omega, by omega, by omega, by omega⟩, ?_⟩
    intro rc hrc
    rcases List.mem_cons.mp hrc with heq | hin
    · subst heq
      exact ⟨by omega, by omega, by omega, by omega⟩
    · exact hmem rc hin

theorem foldl_boundsStep_attained (xs : List (ℕ × ℕ)) :
    ∀ b0 b : Bounds, xs.foldl boundsStep (some b0) = some b →
      (b.minR = b0.minR ∨ ∃ rc ∈ xs, rc.1 = b.minR) ∧
      (b.maxR = b0.maxR ∨ ∃ rc ∈ xs, rc.1 = b.maxR) ∧
      (b.minC = b0.minC ∨ ∃ rc ∈ xs, rc.2 = b.minC) ∧
      (b.maxC = b0.maxC ∨ ∃ rc ∈ xs, rc.2 = b.maxC) := by
  induction xs with
  | nil =>
    intro b0 b h
    simp only [List.foldl_nil, Option.some_inj] at h
    subst h
    simp
  | cons x xs ih =>
    intro b0 b h
    simp only [List.foldl_cons, boundsStep] at h
    obtain ⟨h1, h2, h3, h4⟩ := ih _ b h
    refine ⟨?_, ?_, ?_, ?_⟩
    · rcases h1 with he | ⟨rc, hrc, he⟩
      · rcases min_cases b0.minR x.1 with ⟨hm, _⟩ | ⟨hm, _⟩
        · left; rw [he, hm]
        · right; exact ⟨x, by simp, by rw [he, hm]⟩
      · right; exact ⟨rc, by simp [hrc], he⟩
    · rcases h2 with he | ⟨rc, hrc, he⟩
      · rcases max_cases b0.maxR x.1 with ⟨hm, _⟩ | ⟨hm, _⟩
        · left; rw [he, hm]
        · right; exact ⟨x, by simp, by rw [he, hm]⟩
      · right; exact ⟨rc, by simp [hrc], he⟩
    · rcases h3 with he | ⟨rc, hrc, he⟩
      · rcases min_cases b0.minC x.2 with ⟨hm, _⟩ | ⟨hm, _⟩
        · left; rw [he, hm]
        · right; exact ⟨x, by simp, by rw [he, hm]⟩
      · right; exact ⟨rc, by simp [hrc], he⟩
    · rcases h4 with he | ⟨rc, hrc, he⟩
      · rcases max_cases b0.maxC x.2 with ⟨hm, _⟩ | ⟨hm, _⟩
        · left; rw [he, hm]
        · right; exact ⟨x, by simp, by rw [he, hm]⟩
      · right; exact ⟨rc, by simp [hrc], he⟩

theorem gridBounds_spec (x : ℕ × ℕ) (xs : List (ℕ × ℕ)) :
    ∃ b : Bounds, gridBounds (x :: xs) = some b ∧
      (∀ rc ∈ x :: xs, b.minR ≤ rc.1 ∧ rc.1 ≤ b.maxR ∧ b.minC ≤ rc.2 ∧ rc.2 ≤ b.maxC) ∧
      (∃ rc ∈ x :: xs, rc.1 = b.minR) ∧ (∃ rc ∈ x :: xs, rc.1 = b.maxR) ∧
      (∃ rc ∈ x :: xs, rc.2 = b.minC) ∧ (∃ rc ∈ x :: xs, rc.2 = b.maxC) := by
  have hfold : gridBounds (x :: xs) = xs.foldl boundsStep (some ⟨x.1, x.1, x.2, x.2⟩) := rfl
  obtain ⟨b, hb⟩ := foldl_boundsStep_some xs ⟨x.1, x.1, x.2, x.2⟩
  obtain ⟨⟨m1, m2, m3, m4⟩, hmem⟩ := foldl_boundsStep_bounds xs _ b hb
  obtain ⟨a1, a2, a3, a4⟩ := foldl_boundsStep_attained xs _ b hb
  refine ⟨b, by rw [hfold, hb], ?_, ?_, ?_, ?_, ?_⟩
  · intro rc hrc
    rcases List.mem_cons.mp hrc with heq | hin
    · subst heq
      exact ⟨m1, m2, m3, m4⟩
    · exact hmem rc hin
  · rcases a1 with he | ⟨rc, hrc, he⟩
    · exact ⟨x, by simp, he.symm⟩
    · exact ⟨rc, by simp [hrc], he⟩
  · rcases a2 with he | ⟨rc, hrc, he⟩
    · exact ⟨x, by simp, he.symm⟩
    · exact ⟨rc, by simp [hrc], he⟩
  · rcases a3 with he | ⟨rc, hrc, he⟩
    · exact ⟨x, by simp, he.symm⟩
    · exact ⟨rc, by simp [hrc], he⟩
  · rcases a4 with he | ⟨rc, hrc, he⟩
    · exact ⟨x, by simp, he.symm⟩
    · exact ⟨rc, by simp [hrc], he⟩

/-! ## Row-major scan lemmas -/

theorem mem_activeInBounds (cfg : Config) (gridState : List JSString) (r c : ℕ) :
    (r, c) ∈ activeInBounds cfg gridState ↔
      r < cfg.GRID_ROWS ∧ c < cfg.GRID_COLS ∧ cellKey r c ∈ gridState := by
  unfold activeInBounds
  rw [List.mem_flatMap]
  constructor
  · rintro ⟨r', hr', hmem⟩
    rw [List.mem_filterMap] at hmem
    obtain ⟨c', hc', hf⟩ := hmem
    by_cases hkey : cellKey r' c' ∈ gridState
    · rw [if_pos hkey] at hf
      obtain ⟨rfl, rfl⟩ : r' = r ∧ c' = c := by
        cases hf
        exact ⟨rfl, rfl⟩
      exact ⟨List.mem_range.mp hr', List.mem_range.mp hc', hkey⟩
    · rw [if_neg hkey] at hf
      cases hf
  · rintro ⟨hr, hc, hkey⟩
    refine ⟨r, List.mem_range.mpr hr, ?_⟩
    rw [List.mem_filterMap]
    exact ⟨c, List.mem_range.mpr hc, by rw [if_pos hkey]⟩

theorem filterMap_range_eq_nil {α : Type} (n : ℕ) (f : ℕ → Option α)
    (h : ∀ j < n, f j = none) : (List.range n).filterMap f = [] := by
  rw [List.filterMap_eq_nil_iff]
  intro j hj
  exact h j (List.mem_range.mp hj)

theorem filterMap_range_single {α : Type} (n : ℕ) (f : ℕ → Option α) (k : ℕ) (x : α)
    (hk : k < n) (hfk : f k = some x) (hother : ∀ j < n, j ≠ k → f j = none) :
    (List.range n).filterMap f = [x] := by
  induction n with
  | zero => omega
  | succ n ih =>
    rw [List.range_succ, List.filterMap_append]
    by_cases hkn : k = n
    · subst hkn
      have hnil : (List.range k).filterMap f = [] := by
        refine filterMap_range_eq_nil k f ?_
        intro j hj
        exact hother j (by omega) (by omega)
      rw [hnil]
      simp [hfk]
    · have hih : (List.range n).filterMap f = [x] := by
        refine ih (by omega) ?_
        intro j hj hne
        exact hother j (by omega) hne
      rw [hih]
      have hfn : f n = none := hother n (by omega) (by omega)
      simp [hfn]

theorem flatMap_range_eq_nil {α : Type} (n : ℕ) (g : ℕ → List α)
    (h : ∀ j < n, g j = []) : (List.range n).flatMap g = [] := by
  induction n with
  | zero => rfl
  | succ n ih =>
    rw [List.range_succ, List.flatMap_append]
    have hih : (List.range n).flatMap g = [] := by
      refine ih ?_
      intro j hj
      exact h j (by omega)
    rw [hih]
    simp [h n (by omega)]

theorem flatMap_range_single {α : Type} (n : ℕ) (g : ℕ → List α) (k : ℕ)
    (hk : k < n) (hother : ∀ j < n, j ≠ k → g j = []) :
    (List.range n).flatMap g = g k := by
  induction n with
  | zero => omega
  | succ n ih =>
    rw [List.range_succ, List.flatMap_append]
    by_cases hkn : k = n
    · subst hkn
      have hnil : (List.range k).flatMap g = [] := by
        refine flatMap_range_eq_nil k g ?_
        intro j hj
        exact hother j (by omega) (by omega)
      rw [hnil]
      simp
    · have hih : (List.range n).flatMap g = g k := by
        refine ih (by omega) ?_
        intro j hj hne
        exact hother j (by omega) hne
      rw [hih]
      have hgn : g n = [] := hother n (by omega) (by omega)
      simp [hgn]

theorem activeInBounds_singleton (cfg : Config) (r c : ℕ)
    (hr : r < cfg.GRID_ROWS) (hc : c < cfg.GRID_COLS) :
    activeInBounds cfg [cellKey r c] = [(r, c)] := by
  unfold activeInBounds
  have hinner : ∀ r', (List.range cfg.GRID_COLS).filterMap (fun c' =>
      if cellKey r' c' ∈ [cellKey r c] then some (r', c') else none)
      = if r' = r then [(r, c)] else [] := by
    intro r'
    by_cases hr' : r' = r
    · subst hr'
      rw [if_pos rfl]
      refine filterMap_range_single _ _ c (r', c) hc ?_ ?_
      · rw [if_pos (by simp)]
      · intro j hj hne
        rw [if_neg]
        simp only [List.mem_singleton]
        intro heq
        exact hne (cellKey_inj heq).2
    · rw [if_neg hr']
      refine filterMap_range_eq_nil _ _ ?_
      intro j hj
      rw [if_neg]
      simp only [List.mem_singleton]
      intro heq
      exact hr' (cellKey_inj heq).1
  calc (List.range cfg.GRID_ROWS).flatMap (fun r' =>
        (List.range cfg.GRID_COLS).filterMap (fun c' =>
          if cellKey r' c' ∈ [cellKey r c] then some (r', c') else none))
      = (List.range cfg.GRID_ROWS).flatMap (fun r' => if r' = r then [(r, c)] else []) := by
        exact List.flatMap_congr (fun r' _ => hinner r')
    _ = [(r, c)] := by
        rw [flatMap_range_single cfg.GRID_ROWS _ r hr (fun j hj hne => if_neg hne)]
        exact if_pos rfl

/-! ## Viewport evaluation lemmas -/

theorem activeInBounds_nil (cfg : Config) : activeInBounds cfg [] = [] := by
  unfold activeInBounds
  refine flatMap_range_eq_nil _ _ ?_
  intro r hr
  refine filterMap_range_eq_nil _ _ ?_
  intro c hc
  simp

theorem calcViewport_true_eq (cfg : Config) (gs : List JSString) (b : Bounds)
    (hb : gridBounds (activeInBounds cfg gs) = some b)
    (hne : activeInBounds cfg gs ≠ []) :
    calcViewport cfg gs true =
      ⟨((b.minC : ℚ) * cfg.TRIANGLE_SIZE) / 2
         - (((b.maxC : ℚ) * cfg.TRIANGLE_SIZE) / 2 + cfg.TRIANGLE_SIZE
            - ((b.minC : ℚ) * cfg.TRIANGLE_SIZE) / 2) * (1/10),
       (b.minR : ℚ) * cfg.TRIANGLE_HEIGHT
         - (((b.maxR : ℚ) + 1) * cfg.TRIANGLE_HEIGHT
            - (b.minR : ℚ) * cfg.TRIANGLE_HEIGHT) * (1/10),
       (((b.maxC : ℚ) * cfg.TRIANGLE_SIZE) / 2 + cfg.TRIANGLE_SIZE
         - ((b.minC : ℚ) * cfg.TRIANGLE_SIZE) / 2)
         + (((b.maxC : ℚ) * cfg.TRIANGLE_SIZE) / 2 + cfg.TRIANGLE_SIZE
            - ((b.minC : ℚ) * cfg.TRIANGLE_SIZE) / 2) * (1/10) * 2,
       (((b.maxR : ℚ) + 1) * cfg.TRIANGLE_HEIGHT - (b.minR : ℚ) * cfg.TRIANGLE_HEIGHT)
         + (((b.maxR : ℚ) + 1) * cfg.TRIANGLE_HEIGHT
            - (b.minR : ℚ) * cfg.TRIANGLE_HEIGHT) * (1/10) * 2⟩ := by
  have hlen : (activeInBounds cfg gs).length > 0 := List.length_pos.mpr hne
  simp only [calcViewport]
  rw [hb, if_pos ⟨trivial, hlen⟩]

/-- The extent of a single triangle: every vertex lies in the cell's
bounding box `[xBase, xBase + S] × [yBase, yBase + H]`. -/
theorem getPoints_extent (cfg : Config) (r c : ℕ)
    (hS : 0 ≤ cfg.TRIANGLE_SIZE) (hH : 0 ≤ cfg.TRIANGLE_HEIGHT) :
    ∀ p ∈ getPoints cfg r c,
      ((c : ℚ) * cfg.TRIANGLE_SIZE) / 2 ≤ p.1 ∧
      p.1 ≤ ((c : ℚ) * cfg.TRIANGLE_SIZE) / 2 + cfg.TRIANGLE_SIZE ∧
      (r : ℚ) * cfg.TRIANGLE_HEIGHT ≤ p.2 ∧
      p.2 ≤ (r : ℚ) * cfg.TRIANGLE_HEIGHT + cfg.TRIANGLE_HEIGHT := by
  intro p hp
  unfold getPoints at hp
  split at hp <;>
    simp only [List.mem_cons, List.mem_singleton, List.not_mem_nil, or_false] at hp <;>
    rcases hp with hp | hp | hp <;> subst hp <;>
    refine ⟨by linarith, by linarith, by linarith, by linarith⟩

/-! ## Claim theorems -/

/-- C1: for every non-empty set of in-bounds active cells with auto-crop
enabled, the viewport is computed from the grid bounding box
`minRow, maxRow, minCol, maxCol` as `minX = minCol * S/2`,
`maxX = maxCol * S/2 + S`, `minY = minRow * H`, `maxY = (maxRow+1) * H`,
`width = maxX - minX`, `height = maxY - minY`, with final origin
`(minX - width*0.1, minY - height*0.1)` and final size
`(width*1.2, height*1.2)`. -/
theorem calcViewport_autoCrop_formula (cfg : Config) (gs : List JSString)
    (hne : activeInBounds cfg gs ≠ []) :
    ∃ b : Bounds, gridBounds (activeInBounds cfg gs) = some b ∧
      (∀ rc ∈ activeInBounds cfg gs,
        b.minR ≤ rc.1 ∧ rc.1 ≤ b.maxR ∧ b.minC ≤ rc.2 ∧ rc.2 ≤ b.maxC) ∧
      (∃ rc ∈ activeInBounds cfg gs, rc.1 = b.minR) ∧
      (∃ rc ∈ activeInBounds cfg gs, rc.1 = b.maxR) ∧
      (∃ rc ∈ activeInBounds cfg gs, rc.2 = b.minC) ∧
      (∃ rc ∈ activeInBounds cfg gs, rc.2 = b.maxC) ∧
      calcViewport cfg gs true =
        ⟨((b.minC : ℚ) * cfg.TRIANGLE_SIZE) / 2
           - (((b.maxC : ℚ) * cfg.TRIANGLE_SIZE) / 2 + cfg.TRIANGLE_SIZE
              - ((b.minC : ℚ) * cfg.TRIANGLE_SIZE) / 2) * (1/10),
         (b.minR : ℚ) * cfg.TRIANGLE_HEIGHT
           - (((b.maxR : ℚ) + 1) * cfg.TRIANGLE_HEIGHT
              - (b.minR : ℚ) * cfg.TRIANGLE_HEIGHT) * (1/10),
         (((b.maxC : ℚ) * cfg.TRIANGLE_SIZE) / 2 + cfg.TRIANGLE_SIZE
           - ((b.minC : ℚ) * cfg.TRIANGLE_SIZE) / 2) * (12/10),
         (((b.maxR : ℚ) + 1) * cfg.TRIANGLE_HEIGHT
           - (b.minR : ℚ) * cfg.TRIANGLE_HEIGHT) * (12/10)⟩ := by
  cases hc : activeInBounds cfg gs with
  | nil => exact absurd hc hne
  | cons x xs =>
    obtain ⟨b, hb, hbound, ha1, ha2, ha3, ha4⟩ := gridBounds_spec x xs
    have hb0 : gridBounds (activeInBounds cfg gs) = some b := by rw [hc]; exact hb
    refine ⟨b, hb, hbound, ha1, ha2, ha3, ha4, ?_⟩
    rw [calcViewport_true_eq cfg gs b hb0 hne]
    simp only [Viewport.mk.injEq]
    refine ⟨trivial, trivial, by ring, by ring⟩

/-- C1 witness: the single cell `(0,0)` of the sample configuration. -/
theorem calcViewport_autoCrop_formula_witness :
    ∃ b : Bounds,
      gridBounds (activeInBounds sampleConfig [cellKey 0 0]) = some b ∧
      (∀ rc ∈ activeInBounds sampleConfig [cellKey 0 0],
        b.minR ≤ rc.1 ∧ rc.1 ≤ b.maxR ∧ b.minC ≤ rc.2 ∧ rc.2 ≤ b.maxC) ∧
      (∃ rc ∈ activeInBounds sampleConfig [cellKey 0 0], rc.1 = b.minR) ∧
      (∃ rc ∈ activeInBounds sampleConfig [cellKey 0 0], rc.1 = b.maxR) ∧
      (∃ rc ∈ activeInBounds sampleConfig [cellKey 0 0], rc.2 = b.minC) ∧
      (∃ rc ∈ activeInBounds sampleConfig [cellKey 0 0], rc.2 = b.maxC) ∧
      calcViewport sampleConfig [cellKey 0 0] true =
        ⟨((b.minC : ℚ) * sampleConfig.TRIANGLE_SIZE) / 2
           - (((b.maxC : ℚ) * sampleConfig.TRIANGLE_SIZE) / 2 + sampleConfig.TRIANGLE_SIZE
              - ((b.minC : ℚ) * sampleConfig.TRIANGLE_SIZE) / 2) * (1/10),
         (b.minR : ℚ) * sampleConfig.TRIANGLE_HEIGHT
           - (((b.maxR : ℚ) + 1) * sampleConfig.TRIANGLE_HEIGHT
              - (b.minR : ℚ) * sampleConfig.TRIANGLE_HEIGHT) * (1/10),
         (((b.maxC : ℚ) * sampleConfig.TRIANGLE_SIZE) / 2 + sampleConfig.TRIANGLE_SIZE
           - ((b.minC : ℚ) * sampleConfig.TRIANGLE_SIZE) / 2) * (12/10),
         (((b.maxR : ℚ) + 1) * sampleConfig.TRIANGLE_HEIGHT
           - (b.minR : ℚ) * sampleConfig.TRIANGLE_HEIGHT) * (12/10)⟩ := by
  refine calcViewport_autoCrop_formula sampleConfig [cellKey 0 0] ?_
  rw [activeInBounds_singleton sampleConfig 0 0 (by norm_num [sampleConfig]) (by norm_num [sampleConfig])]
  simp

/-- C6: with auto-crop disabled, or an empty active-cell set, the
viewport calculator returns exactly the fixed viewport
`(0, 0, CANVAS_WIDTH, CANVAS_HEIGHT)`. -/
theorem calcViewport_fixed_cases (cfg : Config) (gs : List JSString) (autoCrop : Bool)
    (h : autoCrop = false ∨ gs = []) :
    calcViewport cfg gs autoCrop = fixedViewport cfg := by
  rcases h with h | h
  · subst h
    simp only [calcViewport]
    rw [if_neg]
    rintro ⟨hfalse, -⟩
    exact Bool.false_ne_true hfalse
  · subst h
    simp only [calcViewport, activeInBounds_nil]
    rw [if_neg]
    rintro ⟨-, hlen⟩
    simp at hlen

/-- C6 witness: the empty set with auto-crop on, in the sample
configuration. -/
theorem calcViewport_fixed_cases_witness :
    calcViewport sampleConfig [] true = fixedViewport sampleConfig :=
  calcViewport_fixed_cases sampleConfig [] true (Or.inr rfl)

/-- C3: for every in-bounds `(r, c)`, the cell geometry resolver returns,
with `xBase = c * TRIANGLE_SIZE / 2` and `yBase = r * TRIANGLE_HEIGHT`:
for even `r+c` the up triangle `(xBase, yBase+H) (xBase+S/2, yBase)
(xBase+S, yBase+H)`, and for odd `r+c` the down triangle
`(xBase, yBase) (xBase+S, yBase) (xBase+S/2, yBase+H)`, in that order. -/
theorem getPoints_vertices (cfg : Config) (r c : ℕ)
    (_hr : r < cfg.GRID_ROWS) (_hc : c < cfg.GRID_COLS) :
    ((r + c) % 2 = 0 →
      getPoints cfg r c =
        [(((c : ℚ) * cfg.TRIANGLE_SIZE) / 2,
          (r : ℚ) * cfg.TRIANGLE_HEIGHT + cfg.TRIANGLE_HEIGHT),
         (((c : ℚ) * cfg.TRIANGLE_SIZE) / 2 + cfg.TRIANGLE_SIZE / 2,
          (r : ℚ) * cfg.TRIANGLE_HEIGHT),
         (((c : ℚ) * cfg.TRIANGLE_SIZE) / 2 + cfg.TRIANGLE_SIZE,
          (r : ℚ) * cfg.TRIANGLE_HEIGHT + cfg.TRIANGLE_HEIGHT)]) ∧
    ((r + c) % 2 ≠ 0 →
      getPoints cfg r c =
        [(((c : ℚ) * cfg.TRIANGLE_SIZE) / 2,
          (r : ℚ) * cfg.TRIANGLE_HEIGHT),
         (((c : ℚ) * cfg.TRIANGLE_SIZE) / 2 + cfg.TRIANGLE_SIZE,
          (r : ℚ) * cfg.TRIANGLE_HEIGHT),
         (((c : ℚ) * cfg.TRIANGLE_SIZE) / 2 + cfg.TRIANGLE_SIZE / 2,
          (r : ℚ) * cfg.TRIANGLE_HEIGHT + cfg.TRIANGLE_HEIGHT)]) := by
  constructor <;> intro h <;> simp [getPoints, isUp, h]

/-- C3 witness: the up cell `(0, 0)` of the sample configuration. -/
theorem getPoints_vertices_witness :
    getPoints sampleConfig 0 0 = [(0, 17), (10, 0), (20, 17)] := by
  have h := (getPoints_vertices sampleConfig 0 0 (by norm_num [sampleConfig])
    (by norm_num [sampleConfig])).1 (by norm_num)
  rw [h]
  norm_num [sampleConfig]

/-- C4: for every valid `(r, c)` with `r + c` even, the down triangle at
`(r, c+1)` shares its left edge with the up triangle at `(r, c)`'s right
edge: its top-left vertex equals the up triangle's apex and its bottom
apex equals the up triangle's bottom-right vertex, exactly. -/
theorem adjacent_shared_edge (cfg : Config) (r c : ℕ) (hpar : (r + c) % 2 = 0)
    (_hr : r < cfg.GRID_ROWS) (_hc : c + 1 < cfg.GRID_COLS) :
    (getPoints cfg r (c + 1))[0]? = (getPoints cfg r c)[1]? ∧
    (getPoints cfg r (c + 1))[2]? = (getPoints cfg r c)[2]? := by
  have hup : isUp r c = true := by simp [isUp]; omega
  have hdn : isUp r (c + 1) = false := by
    simp only [isUp, beq_eq_false_iff_ne, ne_eq]
    omega
  simp only [getPoints, hup, hdn, if_true, Bool.false_eq_true, if_false]
  constructor
  · simp only [List.getElem?_cons_zero, List.getElem?_cons_succ, Option.some_inj,
      Prod.mk.injEq]
    refine ⟨by push_cast; ring, trivial⟩
  · simp only [List.getElem?_cons_succ, List.getElem?_cons_zero, Option.some_inj,
      Prod.mk.injEq]
    refine ⟨by push_cast; ring, trivial⟩

/-- C4 witness: cells `(0,0)` and `(0,1)` of the sample configuration. -/
theorem adjacent_shared_edge_witness :
    (getPoints sampleConfig 0 1)[0]? = (getPoints sampleConfig 0 0)[1]? ∧
    (getPoints sampleConfig 0 1)[2]? = (getPoints sampleConfig 0 0)[2]? :=
  adjacent_shared_edge sampleConfig 0 0 (by norm_num)
    (by norm_num [sampleConfig]) (by norm_num [sampleConfig])

/-- C5: for every valid `(r, c)`, the orientation is up iff
`(r + c) % 2 = 0`, and it alternates with the right neighbor `(r, c+1)`
and the lower neighbor `(r+1, c)`. -/
theorem orientation_parity (cfg : Config) (r c : ℕ)
    (_hr : r < cfg.GRID_ROWS) (_hc : c < cfg.GRID_COLS) :
    (isUp r c = true ↔ (r + c) % 2 = 0) ∧
    (c + 1 < cfg.GRID_COLS → isUp r (c + 1) = !isUp r c) ∧
    (r + 1 < cfg.GRID_ROWS → isUp (r + 1) c = !isUp r c) := by
  refine ⟨by simp [isUp], fun _ => ?_, fun _ => ?_⟩
  · rcases Nat.mod_two_eq_zero_or_one (r + c) with h | h
    · have h' : (r + (c + 1)) % 2 = 1 := by omega
      simp [isUp, h, h']
    · have h' : (r + (c + 1)) % 2 = 0 := by omega
      simp [isUp, h, h']
  · rcases Nat.mod_two_eq_zero_or_one (r + c) with h | h
    · have h' : (r + 1 + c) % 2 = 1 := by omega
      simp [isUp, h, h']
    · have h' : (r + 1 + c) % 2 = 0 := by omega
      simp [isUp, h, h']

/-- C5 witness: cell `(0, 0)` of the sample configuration. -/
theorem orientation_parity_witness :
    (isUp 0 0 = true ↔ (0 + 0) % 2 = 0) ∧
    (0 + 1 < sampleConfig.GRID_COLS → isUp 0 (0 + 1) = !isUp 0 0) ∧
    (0 + 1 < sampleConfig.GRID_ROWS → isUp (0 + 1) 0 = !isUp 0 0) :=
  orientation_parity sampleConfig 0 0 (by norm_num [sampleConfig])
    (by norm_num [sampleConfig])

/-- C7: serializing a coordinate to its `"row-col"` key and parsing the
key back by splitting on the hyphen and reading the two decimal integers
is the identity; consequently serializing an active-cell set and parsing
it back yields an identical set, with membership independent of element
order. -/
theorem cellKey_roundTrip :
    (∀ r c : ℕ, parseKey (cellKey r c) = some (r, c)) ∧
    (∀ coords : List (ℕ × ℕ), parseCells (serializeCells coords) = coords) ∧
    (∀ coords : List (ℕ × ℕ), ∀ rc : ℕ × ℕ,
      rc ∈ parseCells (serializeCells coords) ↔ rc ∈ coords) := by
  have hid : ∀ coords : List (ℕ × ℕ), parseCells (serializeCells coords) = coords := by
    intro coords
    unfold parseCells serializeCells
    rw [List.filterMap_map]
    have hcomp : (parseKey ∘ fun rc : ℕ × ℕ => cellKey rc.1 rc.2)
        = fun rc : ℕ × ℕ => some rc := by
      funext rc
      simp [Function.comp, parseKey_cellKey]
    rw [hcomp]
    exact List.filterMap_some coords
  exact ⟨parseKey_cellKey, hid, fun coords rc => by rw [hid]⟩

theorem cellKey_length (r c : ℕ) : 3 ≤ (cellKey r c).length := by
  unfold cellKey
  have h1 : 0 < (natChars r).length := List.length_pos.mpr (natChars_ne_nil r)
  have h2 : 0 < (natChars c).length := List.length_pos.mpr (natChars_ne_nil c)
  simp only [List.length_append, List.length_cons]
  omega

/-- C9: a polygon is drawn for cell `(r, c)` iff `(r, c)` is in grid
bounds and its exact key string is in the gridState; a gridState whose
keys all fail to name an in-bounds cell (out-of-bounds or malformed)
renders no polygon and yields the fixed full-canvas viewport. -/
theorem renderedPolygons_in_bounds_only (cfg : Config) (gs : List JSString) :
    (∀ r c : ℕ, (r, c) ∈ activeInBounds cfg gs ↔
      r < cfg.GRID_ROWS ∧ c < cfg.GRID_COLS ∧ cellKey r c ∈ gs) ∧
    ((∀ s ∈ gs, ∀ r < cfg.GRID_ROWS, ∀ c < cfg.GRID_COLS, s ≠ cellKey r c) →
      renderedPolygons cfg gs = [] ∧ calcViewport cfg gs true = fixedViewport cfg) := by
  refine ⟨fun r c => mem_activeInBounds cfg gs r c, fun h => ?_⟩
  have hnil : activeInBounds cfg gs = [] := by
    rw [List.eq_nil_iff_forall_not_mem]
    rintro ⟨r, c⟩ hmem
    rw [mem_activeInBounds] at hmem
    obtain ⟨hr, hc, hkey⟩ := hmem
    exact h _ hkey r hr c hc rfl
  constructor
  · unfold renderedPolygons
    rw [hnil]
    rfl
  · simp only [calcViewport, hnil]
    rw [if_neg]
    rintro ⟨-, hlen⟩
    simp at hlen

/-- C9 witness: a gridState holding only the malformed key `"a"`. -/
theorem renderedPolygons_in_bounds_only_witness :
    renderedPolygons sampleConfig [['a']] = [] ∧
    calcViewport sampleConfig [['a']] true = fixedViewport sampleConfig := by
  refine (renderedPolygons_in_bounds_only sampleConfig [['a']]).2 ?_
  intro s hs r hr c hc heq
  simp only [List.mem_singleton] at hs
  subst hs
  have hlen := cellKey_length r c
  rw [← heq] at hlen
  simp at hlen

/-- C2: for every non-empty in-bounds active-cell set with auto-crop on,
the cropped viewport contains all three vertices of every active
triangle, has strictly positive width and height, and for a single
active cell it is exactly one triangle's bounding box (width `S`,
height `H`) scaled by the 20% total padding — never degenerate. -/
theorem calcViewport_contains_active (cfg : Config) (gs : List JSString)
    (hS : 0 < cfg.TRIANGLE_SIZE) (hH : 0 < cfg.TRIANGLE_HEIGHT)
    (hne : activeInBounds cfg gs ≠ []) :
    (∀ rc ∈ activeInBounds cfg gs, ∀ p ∈ getPoints cfg rc.1 rc.2,
      (calcViewport cfg gs true).minX ≤ p.1 ∧
      p.1 ≤ (calcViewport cfg gs true).minX + (calcViewport cfg gs true).width ∧
      (calcViewport cfg gs true).minY ≤ p.2 ∧
      p.2 ≤ (calcViewport cfg gs true).minY + (calcViewport cfg gs true).height) ∧
    0 < (calcViewport cfg gs true).width ∧
    0 < (calcViewport cfg gs true).height ∧
    (∀ r c : ℕ, r < cfg.GRID_ROWS → c < cfg.GRID_COLS → gs = [cellKey r c] →
      (calcViewport cfg gs true).width = cfg.TRIANGLE_SIZE * (12/10) ∧
      (calcViewport cfg gs true).height = cfg.TRIANGLE_HEIGHT * (12/10)) := by
  cases hc0 : activeInBounds cfg gs with
  | nil => exact absurd hc0 hne
  | cons x xs =>
    obtain ⟨b, hb, hbound, -, -, -, -⟩ := gridBounds_spec x xs
    have hb0 : gridBounds (activeInBounds cfg gs) = some b := by rw [hc0]; exact hb
    have hvp := calcViewport_true_eq cfg gs b hb0 hne
    rw [hvp]
    dsimp only
    obtain ⟨hx1, hx2, hx3, hx4⟩ := hbound x (List.mem_cons_self x xs)
    have hxc1 : (b.minC : ℚ) * cfg.TRIANGLE_SIZE ≤ (x.2 : ℚ) * cfg.TRIANGLE_SIZE :=
      mul_le_mul_of_nonneg_right (by exact_mod_cast hx3) hS.le
    have hxc2 : (x.2 : ℚ) * cfg.TRIANGLE_SIZE ≤ (b.maxC : ℚ) * cfg.TRIANGLE_SIZE :=
      mul_le_mul_of_nonneg_right (by exact_mod_cast hx4) hS.le
    have hxr1 : (b.minR : ℚ) * cfg.TRIANGLE_HEIGHT ≤ (x.1 : ℚ) * cfg.TRIANGLE_HEIGHT :=
      mul_le_mul_of_nonneg_right (by exact_mod_cast hx1) hH.le
    have hxr2 : (x.1 : ℚ) * cfg.TRIANGLE_HEIGHT ≤ (b.maxR : ℚ) * cfg.TRIANGLE_HEIGHT :=
      mul_le_mul_of_nonneg_right (by exact_mod_cast hx2) hH.le
    refine ⟨?_, by linarith, by linarith, ?_⟩
    · intro rc hrc p hp
      obtain ⟨h1, h2, h3, h4⟩ := hbound rc hrc
      obtain ⟨e1, e2, e3, e4⟩ := getPoints_extent cfg rc.1 rc.2 hS.le hH.le p hp
      have hc1 : (b.minC : ℚ) * cfg.TRIANGLE_SIZE ≤ (rc.2 : ℚ) * cfg.TRIANGLE_SIZE :=
        mul_le_mul_of_nonneg_right (by exact_mod_cast h3) hS.le
      have hc2 : (rc.2 : ℚ) * cfg.TRIANGLE_SIZE ≤ (b.maxC : ℚ) * cfg.TRIANGLE_SIZE :=
        mul_le_mul_of_nonneg_right (by exact_mod_cast h4) hS.le
      have hr1 : (b.minR : ℚ) * cfg.TRIANGLE_HEIGHT ≤ (rc.1 : ℚ) * cfg.TRIANGLE_HEIGHT :=
        mul_le_mul_of_nonneg_right (by exact_mod_cast h1) hH.le
      have hr2 : (rc.1 : ℚ) * cfg.TRIANGLE_HEIGHT ≤ (b.maxR : ℚ) * cfg.TRIANGLE_HEIGHT :=
        mul_le_mul_of_nonneg_right (by exact_mod_cast h2) hH.le
      exact ⟨by linarith, by linarith, by linarith, by linarith⟩
    · intro r c hr hc hgs
      have hsing : activeInBounds cfg gs = [(r, c)] := by
        rw [hgs]
        exact activeInBounds_singleton cfg r c hr hc
      have hb1 := hb0
      rw [hsing] at hb1
      have hb2 : (⟨r, r, c, c⟩ : Bounds) = b := by
        have hrfl : gridBounds [(r, c)] = some (⟨r, r, c, c⟩ : Bounds) := rfl
        rw [hrfl] at hb1
        exact Option.some_inj.mp hb1
      subst hb2
      constructor
      · dsimp only
        ring
      · dsimp only
        ring

/-- C2 witness: the single active cell `(0,0)` of the sample
configuration gives a non-degenerate viewport. -/
theorem calcViewport_contains_active_witness :
    0 < (calcViewport sampleConfig [cellKey 0 0] true).width ∧
    0 < (calcViewport sampleConfig [cellKey 0 0] true).height := by
  have h := calcViewport_contains_active sampleConfig [cellKey 0 0]
    (by norm_num [sampleConfig]) (by norm_num [sampleConfig])
    (by
      rw [activeInBounds_singleton sampleConfig 0 0 (by norm_num [sampleConfig])
        (by norm_num [sampleConfig])]
      simp)
  exact ⟨h.2.1, h.2.2.1⟩

/-- C8: a document whose `glyphs` field is absent or not an object is
rejected with no glyph mutated, and on an accepted document every glyph
whose character has no entry is left unchanged. -/
theorem handleFileChange_invalid_atomic (prev : List GlyphData) :
    (∀ doc : GlyphsField, (doc = .missing ∨ doc = .notObject) →
      handleFileChange doc prev = (false, prev)) ∧
    (∀ (entries : List (String × List JSString)) (i : ℕ) (g : GlyphData),
      prev[i]? = some g → entries.lookup g.char = none →
      ((handleFileChange (.obj entries) prev).2)[i]? = some g) := by
  constructor
  · rintro doc (rfl | rfl) <;> rfl
  · intro entries i g hg hlk
    simp only [handleFileChange]
    rw [List.getElem?_map, hg]
    simp [hlk]

/-- C8 witness: the `missing` document and a one-glyph state. -/
theorem handleFileChange_invalid_atomic_witness :
    handleFileChange .missing [⟨"A", none, none, .pending⟩]
      = (false, [⟨"A", none, none, .pending⟩]) :=
  (handleFileChange_invalid_atomic [⟨"A", none, none, .pending⟩]).1 .missing (Or.inl rfl)

/-- C10: on a successful import, a glyph whose character has an entry
changes exactly its `gridState` (to the imported array) and `imageUrl`
(to null); its `char` and `status` are unchanged, and a glyph whose
character is absent keeps all of its fields. -/
theorem handleFileChange_success_frame
    (entries : List (String × List JSString)) (prev : List GlyphData)
    (i : ℕ) (g : GlyphData) (hg : prev[i]? = some g) :
    ((handleFileChange (.obj entries) prev).1 = true) ∧
    (∀ gsArr : List JSString, entries.lookup g.char = some gsArr →
      ∃ g' : GlyphData, ((handleFileChange (.obj entries) prev).2)[i]? = some g' ∧
        g'.char = g.char ∧ g'.status = g.status ∧
        g'.gridState = some gsArr ∧ g'.imageUrl = none) ∧
    (entries.lookup g.char = none →
      ((handleFileChange (.obj entries) prev).2)[i]? = some g) := by
  refine ⟨rfl, ?_, ?_⟩
  · intro gsArr hlk
    refine ⟨{ g with gridState := some gsArr, imageUrl := none }, ?_, rfl, rfl, rfl, rfl⟩
    simp only [handleFileChange]
    rw [List.getElem?_map, hg]
    simp [hlk]
  · intro hlk
    simp only [handleFileChange]
    rw [List.getElem?_map, hg]
    simp [hlk]

/-- C10 witness: importing an entry for `"A"` over a one-glyph state. -/
theorem handleFileChange_success_frame_witness :
    ∃ g' : GlyphData,
      ((handleFileChange (.obj [("A", [])]) [⟨"A", some "u", none, .pending⟩]).2)[0]?
        = some g' ∧
      g'.char = "A" ∧ g'.status = .pending ∧ g'.gridState = some [] ∧ g'.imageUrl = none :=
  (handleFileChange_success_frame [("A", [])] [⟨"A", some "u", none, .pending⟩] 0
    ⟨"A", some "u", none, .pending⟩ rfl).2.1 [] rfl
